import Mathlib

/-
Verification of the diff-scoped review engine in `review_pr.py`.

The Python source is shallowly embedded: pure functions become Lean
functions; the two external effects of the pipeline are passed in
explicitly:
  * reading file content from disk (`rule_based_review`) is modelled by a
    read-only map `fs : String → Option String` (`none` = unreadable file,
    i.e. `open` raised);
  * the generative service call (`ollama` client + response field access)
    is modelled by `gen : String → Option String` taking the prompt and
    returning the raw response text, `none` meaning the call raised.

Python `str` values are modelled as Lean `String`; line numbers as `Int`
(Python integers); Python `set` of line numbers as a duplicate-free
`List Int` built by `insertLine`; the insertion-ordered dict
`added_lines_by_file` as an association list `List (String × List Int)`
with unique keys.
-/

/-! ### Python string primitives used by the source -/

/-- Python whitespace for `str.strip` / regex `\s` (ASCII part:
space, tab, newline, carriage return, vertical tab, form feed). -/
def pyIsSpace (c : Char) : Bool :=
  c == ' ' || c == '\t' || c == '\n' || c == '\r' || c == '\x0b' || c == '\x0c'

/-- `str.startswith` (single argument). -/
def pyStartsWith (s pre : String) : Bool :=
  pre.toList.isPrefixOf s.toList

/-- `str.endswith` (single argument). -/
def pyEndsWith (s suf : String) : Bool :=
  suf.toList.isSuffixOf s.toList

def pyStripChars (cs : List Char) : List Char :=
  ((cs.dropWhile pyIsSpace).reverse.dropWhile pyIsSpace).reverse

/-- Python `str.strip()` with no argument: removes whitespace from both ends. -/
def pyStrip (s : String) : String :=
  String.mk (pyStripChars s.toList)

def pySplitlinesAux : List Char → List Char → List String
  | acc, [] => if acc.isEmpty then [] else [String.mk acc.reverse]
  | acc, '\r' :: '\n' :: rest => String.mk acc.reverse :: pySplitlinesAux [] rest
  | acc, '\r' :: rest => String.mk acc.reverse :: pySplitlinesAux [] rest
  | acc, '\n' :: rest => String.mk acc.reverse :: pySplitlinesAux [] rest
  | acc, c :: rest => pySplitlinesAux (c :: acc) rest

/-- Python `str.splitlines()`: split at line terminators (here `\n`, `\r\n`,
`\r`; the rarer terminators such as `\v`, `\f`, ` ` are not modelled),
with no trailing empty line. Since every line the parser sees comes out of
`splitlines`, the source's extra `raw_line.rstrip("\n")` is the identity and
is not repeated here. -/
def pySplitlines (s : String) : List String :=
  pySplitlinesAux [] s.toList

/-! ### `is_reviewable_file` (review_pr.py lines 19-56) -/

/-- Excluded directory areas, review_pr.py lines 28-39. -/
def excluded_prefixes : List String :=
  [".github/", ".husky/", "scripts/", "config/", "node_modules/",
   "public/", "__tests__/", ".vscode/", ".idea/", ".git/"]

/-- The reviewer's own entry-point file names, review_pr.py lines 42-45. -/
def excluded_files : List String :=
  ["review_pr.py", "review.py"]

/-- Allowed language extensions, review_pr.py lines 49-55. -/
def allowed_exts : List String :=
  [".js", ".jsx", ".ts", ".tsx", ".mjs", ".cjs", ".vue", ".svelte",
   ".py", ".rb", ".php", ".go", ".rs", ".java", ".kt", ".kts", ".scala",
   ".cs", ".cshtml", ".vb", ".fs", ".swift",
   ".c", ".cc", ".cxx", ".cpp", ".h", ".hpp", ".hh", ".m", ".mm",
   ".sql", ".ps1", ".sh"]

/-- The self-exclusion test of review_pr.py line 46:
`any(path.endswith(name) for name in excluded_files)`. -/
def selfExcluded (path : String) : Bool :=
  excluded_files.any (fun name => pyEndsWith path name)

/-- `is_reviewable_file`, review_pr.py lines 19-56.  The `isinstance(path, str)`
guard always passes in this typed embedding. -/
def is_reviewable_file (path : String) : Bool :=
  if excluded_prefixes.any (fun pre => pyStartsWith path pre) then false
  else if selfExcluded path then false
  else allowed_exts.any (fun ext => pyEndsWith path ext)

/-! ### `parse_unified_diff` (review_pr.py lines 59-113) -/

/-- The file-header regex `^\+\+\+ b\/(.+)$` of review_pr.py line 69:
matches when the line is `+++ b/` followed by at least one character,
capturing that remainder. Lines never contain `\n`, so `.` is unrestricted. -/
def fileHeaderPath (line : String) : Option String :=
  match line.toList with
  | '+' :: '+' :: '+' :: ' ' :: 'b' :: '/' :: rest =>
      if rest.isEmpty then none else some (String.mk rest)
  | _ => none

def digitsToNat (ds : List Char) : Nat :=
  ds.foldl (fun n c => n * 10 + (c.toNat - 48)) 0

/-- Consume at least one `\s` then any further whitespace (regex `\s+`). -/
def expectWs1 : List Char → Option (List Char)
  | c :: rest => if pyIsSpace c then some (rest.dropWhile pyIsSpace) else none
  | [] => none

/-- Consume at least one digit (regex `\d+`), returning its value. -/
def takeDigits1 (cs : List Char) : Option (Nat × List Char) :=
  let ds := cs.takeWhile Char.isDigit
  if ds.isEmpty then none else some (digitsToNat ds, cs.dropWhile Char.isDigit)

/-- The optional group `(?:,\d+)?`: consumed only when a comma followed by at
least one digit is present, otherwise it matches the empty string. -/
def skipOptCommaDigits (cs : List Char) : List Char :=
  match cs with
  | ',' :: rest =>
      match takeDigits1 rest with
      | some (_, rest2) => rest2
      | none => cs
  | _ => cs

/-- The hunk-header regex `^@@\s+-\d+(?:,\d+)?\s+\+(\d+)(?:,(\d+))?\s+@@` of
review_pr.py line 70, applied with `re.match` (anchored at the start, any
trailing text allowed), returning the captured new-file start line.  All the
character classes involved are disjoint, so maximal munch is equivalent to
the regex engine's backtracking search. -/
def hunkNewStart (line : String) : Option Int :=
  match line.toList with
  | '@' :: '@' :: rest =>
    match expectWs1 rest with
    | none => none
    | some r1 =>
      match r1 with
      | '-' :: r2 =>
        match takeDigits1 r2 with
        | none => none
        | some (_, r3) =>
          match expectWs1 (skipOptCommaDigits r3) with
          | none => none
          | some r5 =>
            match r5 with
            | '+' :: r6 =>
              match takeDigits1 r6 with
              | none => none
              | some (n, r7) =>
                match expectWs1 (skipOptCommaDigits r7) with
                | none => none
                | some r9 =>
                  match r9 with
                  | '@' :: '@' :: _ => some (Int.ofNat n)
                  | _ => none
            | _ => none
      | _ => none
  | _ => none

/-- Association-list membership test used for `file_path not in
added_lines_by_file` and the final lookups. -/
def lookupAdded : List (String × List Int) → String → Option (List Int)
  | [], _ => none
  | e :: rest, k => if e.1 = k then some e.2 else lookupAdded rest k

/-- `added_lines_by_file[file_path] = set()` guarded by
`if file_path not in added_lines_by_file` (review_pr.py lines 81-82). -/
def insertKeyIfNew (m : List (String × List Int)) (k : String) :
    List (String × List Int) :=
  match lookupAdded m k with
  | none => m ++ [(k, [])]
  | some _ => m

/-- `set.add`: duplicate-free insertion. -/
def insertLine (n : Int) (ls : List Int) : List Int :=
  if n ∈ ls then ls else ls ++ [n]

/-- `added_lines_by_file[file_path].add(new_line_number)` (review_pr.py
line 104).  When the pipeline reaches this statement the selected file is
always a key of the map, so the missing-key case (a `KeyError` in Python)
is unreachable; the embedding leaves the map unchanged there. -/
def updateAdd (m : List (String × List Int)) (k : String) (n : Int) :
    List (String × List Int) :=
  m.map (fun e => if e.1 = k then (e.1, insertLine n e.2) else e)

/-- Loop state of `parse_unified_diff`: the selected file (`file_path`),
the map under construction, and the new-file line cursor
(`new_line_number`, `none` = Python `None`). -/
structure ParseState where
  file_path : Option String
  added : List (String × List Int)
  cursor : Option Int
deriving DecidableEq

/-- One iteration of the `for raw_line in diff_text.splitlines()` loop of
review_pr.py lines 72-111, in source order: file header, hunk header,
not-inside-a-hunk guard, header skip, added line, removed line, context. -/
def parseStep (st : ParseState) (line : String) : ParseState :=
  match fileHeaderPath line with
  | some candidate_path =>
      if is_reviewable_file candidate_path then
        { file_path := some candidate_path,
          added := insertKeyIfNew st.added candidate_path,
          cursor := none }
      else
        { file_path := none, added := st.added, cursor := none }
  | none =>
    match hunkNewStart line with
    | some n => { st with cursor := some n }
    | none =>
      match st.file_path, st.cursor with
      | some f, some n =>
          if pyStartsWith line "+++" || pyStartsWith line "---"
              || pyStartsWith line "diff --git" then st
          else if pyStartsWith line "+" && !pyStartsWith line "+++" then
            { st with added := updateAdd st.added f n, cursor := some (n + 1) }
          else if pyStartsWith line "-" && !pyStartsWith line "---" then st
          else { st with cursor := some (n + 1) }
      | _, _ => st

/-- `parse_unified_diff`, review_pr.py lines 59-113: fold the step over the
split lines, returning the file → added-line-numbers map. -/
def parse_unified_diff (diff_text : String) : List (String × List Int) :=
  ((pySplitlines diff_text).foldl parseStep
    { file_path := none, added := [], cursor := none }).added

/-! ### `build_review_prompt` (review_pr.py lines 116-144) -/

/-- Insertion sort on `Int`, modelling Python `sorted` on the line-number
set (whose elements are distinct). -/
def sortInsert (n : Int) : List Int → List Int
  | [] => [n]
  | x :: xs => if n ≤ x then n :: x :: xs else x :: sortInsert n xs

def sortInts : List Int → List Int
  | [] => []
  | x :: xs => sortInsert x (sortInts xs)

/-- Python `str` of a list of integers, e.g. `[1, 2, 3]`. -/
def fmtPyIntList (xs : List Int) : String :=
  "[" ++ String.intercalate ", " (xs.map toString) ++ "]"

/-- `build_review_prompt`, review_pr.py lines 116-144.  The literal braces of
the JSON-shape line are written with escapes. -/
def build_review_prompt (added_lines_by_file : List (String × List Int)) : String :=
  let header : List String :=
    ["You are an expert software code reviewer across languages and frameworks. Review ONLY the added lines below.",
     "For each issue, return a JSON array of objects of the form:",
     "\x7b\"file\": \"relative/path.js\", \"line\": <added_line_number>, \"comment\": \"specific, actionable suggestion\"\x7d",
     "Rules:",
     "- Only use file paths and line numbers exactly as provided below.",
     "- Keep comments concise and actionable; avoid restating the code.",
     "- Focus on correctness, performance, security, maintainability, and style.",
     "",
     "Changed files and added lines:"]
  let fileLines : List String :=
    added_lines_by_file.foldl
      (fun parts e =>
        if e.2 = [] then parts
        else parts ++ ["- " ++ e.1 ++ ": added lines " ++ fmtPyIntList (sortInts e.2)])
      []
  String.intercalate "\n"
    (header ++ fileLines ++
     ["", "Return ONLY valid JSON array with the specified fields. No explanations."])

/-! ### A model of Python's `json` module, as used by `extract_json_array`
and `filter_items_to_changed_lines`.

`json.loads` is modelled as a recursive-descent parser over the JSON value
grammar.  Numbers are modelled as integers only (a fractional or exponent
part makes the whole parse fail); `NaN`/`Infinity` extensions and `\u`
surrogate pairing are not modelled.  Objects keep their members in source
order; as in Python, a duplicated key is resolved by its last occurrence
(`pyGet` below). -/

inductive JsonValue where
  | null : JsonValue
  | bool : Bool → JsonValue
  | num : Int → JsonValue
  | str : String → JsonValue
  | arr : List JsonValue → JsonValue
  | obj : List (String × JsonValue) → JsonValue

def jsonWsChar (c : Char) : Bool :=
  c == ' ' || c == '\t' || c == '\n' || c == '\r'

def skipJsonWs (cs : List Char) : List Char :=
  cs.dropWhile jsonWsChar

def lbraceChar : Char := Char.ofNat 123

def rbraceChar : Char := Char.ofNat 125

def hexVal? (c : Char) : Option Nat :=
  if c.isDigit then some (c.toNat - 48)
  else if 'a' ≤ c && c ≤ 'f' then some (c.toNat - 87)
  else if 'A' ≤ c && c ≤ 'F' then some (c.toNat - 55)
  else none

/-- Body of a JSON string literal after the opening quote: ordinary
characters (control characters rejected, as in strict-mode `json.loads`),
the short escapes, and `\uXXXX`. -/
def parseStringBody : List Char → List Char → Option (String × List Char)
  | _, [] => none
  | acc, c :: rest =>
    if c == '"' then some (String.mk acc.reverse, rest)
    else if c == '\\' then
      match rest with
      | [] => none
      | e :: rest2 =>
        if e == '"' then parseStringBody ('"' :: acc) rest2
        else if e == '\\' then parseStringBody ('\\' :: acc) rest2
        else if e == '/' then parseStringBody ('/' :: acc) rest2
        else if e == 'b' then parseStringBody ('\x08' :: acc) rest2
        else if e == 'f' then parseStringBody ('\x0c' :: acc) rest2
        else if e == 'n' then parseStringBody ('\n' :: acc) rest2
        else if e == 'r' then parseStringBody ('\r' :: acc) rest2
        else if e == 't' then parseStringBody ('\t' :: acc) rest2
        else if e == 'u' then
          match rest2 with
          | h1 :: h2 :: h3 :: h4 :: rest3 =>
            match hexVal? h1, hexVal? h2, hexVal? h3, hexVal? h4 with
            | some a, some b, some c3, some d =>
                parseStringBody
                  (Char.ofNat (((a * 16 + b) * 16 + c3) * 16 + d) :: acc) rest3
            | _, _, _, _ => none
          | _ => none
        else none
    else if c.toNat < 32 then none
    else parseStringBody (c :: acc) rest

/-- JSON integer literal: optional minus, then `0` or a nonzero digit
followed by digits.  A following `.`, `e` or `E` (a float) is out of the
modelled fragment and fails. -/
def parseJsonInt (cs : List Char) : Option (Int × List Char) :=
  let core : List Char → Option (Nat × List Char) := fun ds =>
    match ds with
    | [] => none
    | d :: rest =>
      if d == '0' then some (0, rest)
      else if d.isDigit then
        some (digitsToNat (ds.takeWhile Char.isDigit), ds.dropWhile Char.isDigit)
      else none
  let signed : Option (Bool × List Char) :=
    match cs with
    | '-' :: rest => some (true, rest)
    | _ => some (false, cs)
  match signed with
  | some (neg, body) =>
    match core body with
    | none => none
    | some (n, rest) =>
      match rest with
      | c :: _ => if c == '.' || c == 'e' || c == 'E' then none
                  else some (if neg then -(n : Int) else (n : Int), rest)
      | [] => some (if neg then -(n : Int) else (n : Int), rest)
  | none => none

mutual

def parseValueF : Nat → List Char → Option (JsonValue × List Char)
  | 0, _ => none
  | fuel + 1, cs =>
    match skipJsonWs cs with
    | [] => none
    | c :: rest =>
      if c == '"' then
        match parseStringBody [] rest with
        | some (s, rest2) => some (JsonValue.str s, rest2)
        | none => none
      else if c == '[' then parseElemsF fuel rest true []
      else if c == lbraceChar then parseMembersF fuel rest true []
      else if c == 't' then
        match rest with
        | 'r' :: 'u' :: 'e' :: rest2 => some (JsonValue.bool true, rest2)
        | _ => none
      else if c == 'f' then
        match rest with
        | 'a' :: 'l' :: 's' :: 'e' :: rest2 => some (JsonValue.bool false, rest2)
        | _ => none
      else if c == 'n' then
        match rest with
        | 'u' :: 'l' :: 'l' :: rest2 => some (JsonValue.null, rest2)
        | _ => none
      else
        match parseJsonInt (c :: rest) with
        | some (n, rest2) => some (JsonValue.num n, rest2)
        | none => none

/-- Elements of an array after `[`; `first` is true before the first
element, when a closing `]` is still allowed. -/
def parseElemsF : Nat → List Char → Bool → List JsonValue →
    Option (JsonValue × List Char)
  | 0, _, _, _ => none
  | fuel + 1, cs, first, acc =>
    let cs1 := skipJsonWs cs
    match cs1 with
    | ']' :: rest => if first then some (JsonValue.arr acc.reverse, rest) else none
    | _ =>
      match parseValueF fuel cs1 with
      | none => none
      | some (v, rest) =>
        match skipJsonWs rest with
        | ']' :: rest2 => some (JsonValue.arr (v :: acc).reverse, rest2)
        | ',' :: rest2 => parseElemsF fuel rest2 false (v :: acc)
        | _ => none

/-- Members of an object after the opening brace. -/
def parseMembersF : Nat → List Char → Bool → List (String × JsonValue) →
    Option (JsonValue × List Char)
  | 0, _, _, _ => none
  | fuel + 1, cs, first, acc =>
    let cs1 := skipJsonWs cs
    match cs1 with
    | c :: rest =>
      if c == rbraceChar then
        if first then some (JsonValue.obj acc.reverse, rest) else none
      else if c == '"' then
        match parseStringBody [] rest with
        | none => none
        | some (k, rest2) =>
          match skipJsonWs rest2 with
          | ':' :: rest3 =>
            match parseValueF fuel rest3 with
            | none => none
            | some (v, rest4) =>
              match skipJsonWs rest4 with
              | ',' :: rest5 => parseMembersF fuel rest5 false ((k, v) :: acc)
              | c2 :: rest5 =>
                if c2 == rbraceChar then
                  some (JsonValue.obj ((k, v) :: acc).reverse, rest5)
                else none
              | [] => none
          | _ => none
      else none
    | [] => none

end

/-- `json.loads`: parse one JSON value, requiring only whitespace after it.
The fuel `2 * length + 4` is sufficient since every recursive call follows
the consumption of at least one input character. -/
def jsonLoads (text : String) : Option JsonValue :=
  match parseValueF (2 * text.length + 4) text.toList with
  | some (v, rest) => if (skipJsonWs rest).isEmpty then some v else none
  | none => none

/-! ### `extract_json_array` (review_pr.py lines 147-166) -/

def firstIdxOf (c : Char) : List Char → Option Nat
  | [] => none
  | x :: xs =>
      if x == c then some 0
      else match firstIdxOf c xs with
           | some i => some (i + 1)
           | none => none

/-- The stage-2 candidate of review_pr.py lines 157-160: `text.find('[')`,
`text.rfind(']')`, and — when both exist with `end > start` — the inclusive
slice `text[start : end + 1]`. -/
def bracketCandidate (text : String) : Option String :=
  let cs := text.toList
  match firstIdxOf '[' cs, firstIdxOf ']' cs.reverse with
  | some s, some rev =>
      let e := cs.length - 1 - rev
      if s < e then some (String.mk ((cs.drop s).take (e + 1 - s))) else none
  | _, _ => none

/-- `extract_json_array`, review_pr.py lines 147-166: parse the whole text
(returning it only when it is an array), otherwise parse the
first-`[`-to-last-`]` slice, otherwise the empty list.  No other repair is
attempted, and no stage can raise. -/
def extract_json_array (text : String) : List JsonValue :=
  match jsonLoads text with
  | some (JsonValue.arr xs) => xs
  | some _ => []
  | none =>
    match bracketCandidate text with
    | some candidate =>
      match jsonLoads candidate with
      | some (JsonValue.arr xs) => xs
      | some _ => []
      | none => []
    | none => []

/-! ### Findings and `filter_items_to_changed_lines` (review_pr.py lines 169-195) -/

/-- The `{'file': ..., 'line': ..., 'comment': ...}` record. -/
structure Finding where
  file : String
  line : Int
  comment : String
deriving DecidableEq

/-- The single-quote character, kept out of string literals. -/
def singleQuote : String := String.mk [Char.ofNat 39]

/-- `dict.get` on a JSON object; with duplicate keys Python's dict keeps the
last occurrence. -/
def pyGet (ms : List (String × JsonValue)) (k : String) : Option JsonValue :=
  match ms with
  | [] => none
  | (k', v) :: rest =>
    match pyGet rest k with
    | some r => some r
    | none => if k' = k then some v else none

mutual

/-- Python `repr` of a decoded JSON value (quote-escaping inside strings is
not modelled; no claim depends on it). -/
def pyRepr : JsonValue → String
  | JsonValue.null => "None"
  | JsonValue.bool b => if b then "True" else "False"
  | JsonValue.num n => toString n
  | JsonValue.str s => singleQuote ++ s ++ singleQuote
  | JsonValue.arr xs => "[" ++ pyReprList xs ++ "]"
  | JsonValue.obj ms => "\x7b" ++ pyReprMembers ms ++ "\x7d"

def pyReprList : List JsonValue → String
  | [] => ""
  | [v] => pyRepr v
  | v :: vs => pyRepr v ++ ", " ++ pyReprList vs

def pyReprMembers : List (String × JsonValue) → String
  | [] => ""
  | [(k, v)] => singleQuote ++ k ++ singleQuote ++ ": " ++ pyRepr v
  | (k, v) :: ms =>
      singleQuote ++ k ++ singleQuote ++ ": " ++ pyRepr v ++ ", " ++ pyReprMembers ms

end

/-- Python `str()` of a decoded JSON value: identity on strings, `repr`-like
on everything else. -/
def pyStr : JsonValue → String
  | JsonValue.str s => s
  | v => pyRepr v

/-- Python `int()` coercion on a `dict.get` result; `none` models a raised
`TypeError`/`ValueError` (caught by the `except` in the filter).  Underscore
digit separators in strings are not modelled. -/
def pyIntOfString (s : String) : Option Int :=
  let cs := pyStripChars s.toList
  let signed : Bool × List Char :=
    match cs with
    | '-' :: rest => (true, rest)
    | '+' :: rest => (false, rest)
    | _ => (false, cs)
  if signed.2.isEmpty then none
  else if signed.2.all Char.isDigit then
    some (if signed.1 then -(digitsToNat signed.2 : Int) else (digitsToNat signed.2 : Int))
  else none

def pyIntOpt : Option JsonValue → Option Int
  | none => none
  | some (JsonValue.num n) => some n
  | some (JsonValue.bool b) => some (if b then 1 else 0)
  | some (JsonValue.str s) => pyIntOfString s
  | some _ => none

/-- One iteration of the `for item in items` loop of
`filter_items_to_changed_lines`, review_pr.py lines 172-194.  The `try`
block skips the item when `item` is not an object (`.get` raises) or when
`int(item.get('line'))` raises; the subsequent guards skip it unless
`file` is a nonempty string (`not file_path or not isinstance(...)`), the
trimmed comment is nonempty, the file is reviewable, the file is a key of
the map and the line is in its set. -/
def filterStep (added_lines_by_file : List (String × List Int))
    (filtered : List Finding) (item : JsonValue) : List Finding :=
  match item with
  | JsonValue.obj kvs =>
    match pyIntOpt (pyGet kvs "line") with
    | none => filtered
    | some line_number =>
      let comment := pyStrip (pyStr ((pyGet kvs "comment").getD (JsonValue.str "")))
      match pyGet kvs "file" with
      | some (JsonValue.str fp) =>
        if fp = "" then filtered
        else if comment = "" then filtered
        else if !is_reviewable_file fp then filtered
        else
          match lookupAdded added_lines_by_file fp with
          | none => filtered
          | some lines =>
            if line_number ∈ lines then
              filtered ++ [{ file := fp, line := line_number, comment := comment }]
            else filtered
      | _ => filtered
  | _ => filtered

/-- `filter_items_to_changed_lines`, review_pr.py lines 169-195. -/
def filter_items_to_changed_lines (items : List JsonValue)
    (added_lines_by_file : List (String × List Int)) : List Finding :=
  items.foldl (filterStep added_lines_by_file) []

/-! ### The rule engine `rule_based_review` (review_pr.py lines 198-259)

Each `re.search` call is embedded as an explicit search over all starting
positions; since within each of these patterns the repeated character
classes (`\s`, `\w`, digits) are pairwise disjoint from the character that
follows them, maximal munch at a given start is equivalent to the engine's
backtracking search, and trying every start is exactly `re.search`. -/

/-- Regex `\w` (ASCII fragment). -/
def isWordChar (c : Char) : Bool := c.isAlpha || c.isDigit || c == '_'

def charAt (cs : List Char) (i : Nat) : Option Char := (cs.drop i).head?

/-- Regex `\b` placed before a word character at position `i`. -/
def boundaryBefore (cs : List Char) (i : Nat) : Bool :=
  match i with
  | 0 => true
  | j + 1 =>
    match charAt cs j with
    | some c => !isWordChar c
    | none => true

/-- Regex `\b` placed after a word character, before position `i`. -/
def boundaryAfter (cs : List Char) (i : Nat) : Bool :=
  match charAt cs i with
  | some c => !isWordChar c
  | none => true

def occursAt (cs : List Char) (i : Nat) (pat : List Char) : Bool :=
  pat.isPrefixOf (cs.drop i)

/-- `re.search`: some starting position matches. -/
def searchIdx (cs : List Char) (f : Nat → Bool) : Bool :=
  (List.range (cs.length + 1)).any f

def containsSub (s pat : String) : Bool :=
  searchIdx s.toList (fun i => occursAt s.toList i pat.toList)

/-- `\b(TODO|FIXME)\b` with `re.IGNORECASE` (review_pr.py line 222). -/
def detTodoFixme (s : String) : Bool :=
  let hay := s.toList.map Char.toLower
  searchIdx hay (fun i =>
    (occursAt hay i ['t', 'o', 'd', 'o'] && boundaryBefore hay i
      && boundaryAfter hay (i + 4)) ||
    (occursAt hay i ['f', 'i', 'x', 'm', 'e'] && boundaryBefore hay i
      && boundaryAfter hay (i + 5)))

/-- `console\.(log|debug|trace)\(|System\.out\.println\(|Debug\.Write(Line)?\(|print\(`
(review_pr.py line 226): a plain multi-substring test. -/
def detDebugLogging (s : String) : Bool :=
  containsSub s "console.log(" || containsSub s "console.debug(" ||
  containsSub s "console.trace(" || containsSub s "System.out.println(" ||
  containsSub s "Debug.Write(" || containsSub s "Debug.WriteLine(" ||
  containsSub s "print("

/-- `(API|SECRET|TOKEN|KEY)\s*[:=]` with `re.IGNORECASE` (review_pr.py
line 230); note there is no word boundary, so e.g. `monkey=` matches. -/
def detSecret (s : String) : Bool :=
  let hay := s.toList.map Char.toLower
  searchIdx hay (fun i =>
    [['a', 'p', 'i'], ['s', 'e', 'c', 'r', 'e', 't'],
     ['t', 'o', 'k', 'e', 'n'], ['k', 'e', 'y']].any (fun w =>
      occursAt hay i w &&
      (match (hay.drop (i + w.length)).dropWhile pyIsSpace with
       | c :: _ => c == ':' || c == '='
       | [] => false)))

/-- `[^=!]==[^=]` (review_pr.py line 234). -/
def detLooseEq (s : String) : Bool :=
  let cs := s.toList
  searchIdx cs (fun i =>
    match cs.drop i with
    | a :: '=' :: '=' :: d :: _ => a != '=' && a != '!' && d != '='
    | _ => false)

/-- `\b(fetch|axios\.(get|post|put|delete))\(` (review_pr.py line 238). -/
def asyncCallMatch (s : String) : Bool :=
  let cs := s.toList
  searchIdx cs (fun i =>
    boundaryBefore cs i &&
    (occursAt cs i "fetch(".toList || occursAt cs i "axios.get(".toList ||
     occursAt cs i "axios.post(".toList || occursAt cs i "axios.put(".toList ||
     occursAt cs i "axios.delete(".toList))

/-- `await\s+|\.then\(` (review_pr.py line 238). -/
def awaitOrThenMatch (s : String) : Bool :=
  let cs := s.toList
  searchIdx cs (fun i =>
    match cs.drop i with
    | 'a' :: 'w' :: 'a' :: 'i' :: 't' :: c :: _ => pyIsSpace c
    | _ => false) || containsSub s ".then("

/-- Regex `\w+` followed by the rest: at least one word character. -/
def takeWord1 (cs : List Char) : Option (List Char) :=
  match cs with
  | c :: rest => if isWordChar c then some (rest.dropWhile isWordChar) else none
  | [] => none

/-- `public\s+\w+\s+\w+\s*;` (review_pr.py line 242). -/
def detCsPublicField (s : String) : Bool :=
  let cs := s.toList
  searchIdx cs (fun i =>
    occursAt cs i "public".toList &&
    (match expectWs1 (cs.drop (i + 6)) with
     | none => false
     | some r1 =>
       match takeWord1 r1 with
       | none => false
       | some r2 =>
         match expectWs1 r2 with
         | none => false
         | some r3 =>
           match takeWord1 r3 with
           | none => false
           | some r4 =>
             match r4.dropWhile pyIsSpace with
             | ';' :: _ => true
             | _ => false))

/-- `\+\=\s*\w+\s*\+` (review_pr.py line 246). -/
def detCsConcat (s : String) : Bool :=
  let cs := s.toList
  searchIdx cs (fun i =>
    match cs.drop i with
    | '+' :: '=' :: rest =>
      (match takeWord1 (rest.dropWhile pyIsSpace) with
       | none => false
       | some r2 =>
         match r2.dropWhile pyIsSpace with
         | '+' :: _ => true
         | _ => false)
    | _ => false)

/-- `@click="\w+\(\)"` (review_pr.py line 250). -/
def detVueInlineHandler (s : String) : Bool :=
  let cs := s.toList
  searchIdx cs (fun i =>
    occursAt cs i "@click=\"".toList &&
    (match takeWord1 (cs.drop (i + 8)) with
     | none => false
     | some r => "()\"".toList.isPrefixOf r))

/-- `:\s*any\b` (review_pr.py line 254). -/
def detTsAny (s : String) : Bool :=
  let cs := s.toList
  searchIdx cs (fun i =>
    match cs.drop i with
    | ':' :: rest =>
      (let r1 := rest.dropWhile pyIsSpace
       "any".toList.isPrefixOf r1 &&
       (match r1.drop 3 with
        | c :: _ => !isWordChar c
        | [] => true))
    | _ => false)

def msgTodo : String := "Found TODO/FIXME. Resolve or track before merging."

def msgDebug : String := "Remove debug logging before commit or guard behind env flag."

def msgSecret : String := "Potential secret in code. Use env vars or secret manager."

def msgLooseEq : String := "Use strict equality (===) in JS/TS to avoid coercion."

def msgAsync : String := "Async call without await/then. Ensure promise is handled."

def msgCsField : String := "Prefer properties (get/set) instead of public fields in C#."

def msgCsConcat : String := "Avoid string concatenation in loops; use StringBuilder in C#."

def msgVue : String := "Prefer extracting handlers and using modifiers in Vue for clarity."

def msgTsAny : String :=
  "Avoid " ++ singleQuote ++ "any" ++ singleQuote ++
  " in TypeScript; use specific types or unknown."

def ruleMessages : List String :=
  [msgTodo, msgDebug, msgSecret, msgLooseEq, msgAsync,
   msgCsField, msgCsConcat, msgVue, msgTsAny]

/-- The nested `add` helper of review_pr.py lines 212-215: append one
finding when the line is in the added set. -/
def addFinding (added_lines : List Int) (file_path : String) (line_no : Int)
    (msg : String) : List Finding :=
  if line_no ∈ added_lines then
    [{ file := file_path, line := line_no, comment := msg }]
  else []

/-- The extension tuple guarding the loose-equality detector
(review_pr.py line 234). -/
def looseEqExts : List String := [".js", ".jsx", ".ts", ".tsx", ".vue"]

/-- The body of the `for idx, text in enumerate(lines, start=1)` loop,
review_pr.py lines 218-255: the nine detectors in source order, each
appending its finding (via `add`) when it fires. -/
def lineChecks (file_path : String) (added_lines : List Int) (idx : Int)
    (text : String) : List Finding :=
  let stripped := pyStrip text
  (if detTodoFixme stripped then addFinding added_lines file_path idx msgTodo else [])
  ++ (if detDebugLogging stripped then addFinding added_lines file_path idx msgDebug else [])
  ++ (if detSecret stripped then addFinding added_lines file_path idx msgSecret else [])
  ++ (if looseEqExts.any (fun ext => pyEndsWith file_path ext) && detLooseEq stripped
      then addFinding added_lines file_path idx msgLooseEq else [])
  ++ (if asyncCallMatch stripped && !awaitOrThenMatch stripped
      then addFinding added_lines file_path idx msgAsync else [])
  ++ (if pyEndsWith file_path ".cs" && detCsPublicField stripped
      then addFinding added_lines file_path idx msgCsField else [])
  ++ (if pyEndsWith file_path ".cs" && detCsConcat stripped
      then addFinding added_lines file_path idx msgCsConcat else [])
  ++ (if pyEndsWith file_path ".vue" && detVueInlineHandler stripped
      then addFinding added_lines file_path idx msgVue else [])
  ++ (if pyEndsWith file_path ".ts" && detTsAny stripped
      then addFinding added_lines file_path idx msgTsAny else [])

/-- `enumerate(lines, start=1)`. -/
def enumFrom : Int → List String → List (Int × String)
  | _, [] => []
  | i, t :: ts => (i, t) :: enumFrom (i + 1) ts

/-- `rule_based_review`, review_pr.py lines 198-259.  `fs` models reading
the file from disk; `none` is the `except` branch returning no findings. -/
def rule_based_review (fs : String → Option String) (file_path : String)
    (added_lines : List Int) : List Finding :=
  match fs file_path with
  | none => []
  | some src =>
    (enumFrom 1 (pySplitlines src)).foldl
      (fun results it => results ++ lineChecks file_path added_lines it.1 it.2) []

/-! ### `review_code` (review_pr.py lines 262-292) -/

/-- The rule-based loop of review_pr.py lines 268-277: scan each map entry
with a nonempty added-line set, accumulating findings.  (The per-file
`except` is unreachable here since the embedded rule engine is total.) -/
def rule_phase (fs : String → Option String)
    (m : List (String × List Int)) : List Finding :=
  m.foldl
    (fun acc e => if e.2 = [] then acc else acc ++ rule_based_review fs e.1 e.2)
    []

/-- The fallback branch of review_pr.py lines 283-292: build the prompt,
call the service, extract, and validate; a raised exception (`gen` = `none`)
yields the empty result. -/
def generative_phase (gen : String → Option String)
    (m : List (String × List Int)) : List Finding :=
  match gen (build_review_prompt m) with
  | none => []
  | some raw_text => filter_items_to_changed_lines (extract_json_array raw_text) m

/-- `review_code`, review_pr.py lines 262-292: the early return on a falsy
or error-prefixed diff, then the rule phase, returned whenever nonempty,
otherwise the generative fallback. -/
def review_code (fs : String → Option String) (gen : String → Option String)
    (diff : String) : List Finding :=
  if diff = "" ∨ pyStartsWith diff "Error getting diff:" = true then []
  else if rule_phase fs (parse_unified_diff diff) = [] then
    generative_phase gen (parse_unified_diff diff)
  else rule_phase fs (parse_unified_diff diff)

/-! ### Specification-side definitions used to state the claims -/

/-- Transition function following claim C3's wording literally, for
comparison with `parseStep`: while a file is selected and the cursor is
known, a line prefixed with a single added marker records the cursor and
increments it, a line prefixed with a single removed marker leaves the
cursor unchanged, and ANY other line increments the cursor without
recording.  File headers and hunk headers are handled as the spec's other
transition bullets prescribe (reselect / set the cursor). -/
def c3SpecStep (st : ParseState) (line : String) : ParseState :=
  match fileHeaderPath line with
  | some candidate_path =>
      if is_reviewable_file candidate_path then
        { file_path := some candidate_path,
          added := insertKeyIfNew st.added candidate_path,
          cursor := none }
      else
        { file_path := none, added := st.added, cursor := none }
  | none =>
    match hunkNewStart line with
    | some n => { st with cursor := some n }
    | none =>
      match st.file_path, st.cursor with
      | some f, some n =>
          if pyStartsWith line "+" && !pyStartsWith line "+++" then
            { st with added := updateAdd st.added f n, cursor := some (n + 1) }
          else if pyStartsWith line "-" && !pyStartsWith line "---" then st
          else { st with cursor := some (n + 1) }
      | _, _ => st

/-- The diff parse that claim C3's transition rules would produce. -/
def c3_spec_parse (diff_text : String) : List (String × List Int) :=
  ((pySplitlines diff_text).foldl c3SpecStep
    { file_path := none, added := [], cursor := none }).added

/-- The file name (basename) of a path: everything after the last `/`. -/
def fileName (path : String) : String :=
  String.mk ((path.toList.reverse.takeWhile (fun c => c != '/')).reverse)

/-- Stage 2 of `extract_json_array` fails: there is no
first-`[`-to-last-`]` candidate, or it does not parse. -/
def stage2FailsB (text : String) : Bool :=
  match bracketCandidate text with
  | none => true
  | some c => (jsonLoads c).isNone

/-- The generative-service response of the spec's Scenario 3
(single-quoted strings and bare object keys). -/
def c4input : String :=
  "Here you go: [\x7b" ++ singleQuote ++ "file" ++ singleQuote ++ ": " ++
  singleQuote ++ "a.py" ++ singleQuote ++ ", line: 3, comment: " ++
  singleQuote ++ "fix this" ++ singleQuote ++ "\x7d] thanks"

/-- The stage-2 bracket slice of `c4input`. -/
def c4candidate : String :=
  "[\x7b" ++ singleQuote ++ "file" ++ singleQuote ++ ": " ++
  singleQuote ++ "a.py" ++ singleQuote ++ ", line: 3, comment: " ++
  singleQuote ++ "fix this" ++ singleQuote ++ "\x7d]"

/-- A response whose full text parses as a JSON object containing an array. -/
def c10input : String := "\x7b\"a\": [1]\x7d"


/-- The elements of a top-level array value, the empty list otherwise —
the acceptance rule shared by stages 1 and 2 of `extract_json_array`
(`parsed if isinstance(parsed, list) else []`). -/
def arrElems : JsonValue → List JsonValue
  | JsonValue.arr xs => xs
  | _ => []

/-- What stage 2 of `extract_json_array` produces from a candidate slice:
its parsed elements when it parses as an array, the empty list otherwise. -/
def stage2Result (c : String) : List JsonValue :=
  match jsonLoads c with
  | some v => arrElems v
  | none => []

/-! ## Theorems -/

/-- Stage 1 of `extract_json_array`: a text that parses as an array is
returned as parsed. -/
theorem extract_of_loads_arr (s : String) (xs : List JsonValue)
    (h : jsonLoads s = some (JsonValue.arr xs)) : extract_json_array s = xs := by
  simp only [extract_json_array, h]

/-- C5: for every input string `extract_json_array` returns a list (in this
total embedding no stage can raise), and when stage 1 fails to parse and
stage 2 has no parsing bracket candidate, the result is the empty list. -/
theorem extract_total_and_empty_on_failure (s : String) :
    (∃ l : List JsonValue, extract_json_array s = l) ∧
    (jsonLoads s = none → stage2FailsB s = true → extract_json_array s = []) := by
  refine ⟨⟨extract_json_array s, rfl⟩, fun h1 h2 => ?_⟩
  unfold stage2FailsB at h2
  cases hb : bracketCandidate s with
  | none => simp only [extract_json_array, h1, hb]
  | some c =>
    rw [hb] at h2
    simp only [Option.isNone_iff_eq_none] at h2
    simp only [extract_json_array, h1, hb, h2]

/-- Witness for C5 at a string with no recoverable structure. -/
theorem extract_total_and_empty_on_failure_witness :
    extract_json_array "hello" = [] :=
  (extract_total_and_empty_on_failure "hello").2 rfl rfl

/-- C10: when the whole text parses as JSON, `extract_json_array` returns
immediately — the parsed elements for an array, the empty list for every
other top-level value — so the bracket-substring recovery stage is never
reached and an array embedded inside a parseable non-array value is never
recovered. -/
theorem extract_nonarray_toplevel (s : String) (v : JsonValue)
    (h : jsonLoads s = some v) :
    extract_json_array s = arrElems v ∧
    ((∀ xs, v ≠ JsonValue.arr xs) → extract_json_array s = []) := by
  constructor
  · cases v <;> simp only [extract_json_array, h, arrElems]
  · intro hne
    cases v with
    | arr xs => exact absurd rfl (hne xs)
    | null => simp only [extract_json_array, h]
    | bool b => simp only [extract_json_array, h]
    | num n => simp only [extract_json_array, h]
    | str s2 => simp only [extract_json_array, h]
    | obj ms => simp only [extract_json_array, h]

/-- Witness for C10: `c10input` parses as an object containing an array,
and extraction returns the empty list rather than recovering the inner
`[1]`. -/
theorem extract_nonarray_toplevel_witness :
    extract_json_array c10input = [] :=
  (extract_nonarray_toplevel c10input
      (JsonValue.obj [("a", JsonValue.arr [JsonValue.num 1])]) rfl).2
    (fun _ h => JsonValue.noConfusion h)

/-- C9: a string that parses directly as a JSON array extracts to exactly
the directly parsed value, and re-extracting any serialization of the
extraction's output (any string parsing back to that array) yields the
same array. -/
theorem extract_idempotent (s t : String) (xs : List JsonValue)
    (h : jsonLoads s = some (JsonValue.arr xs)) :
    extract_json_array s = xs ∧
    (jsonLoads t = some (JsonValue.arr (extract_json_array s)) →
      extract_json_array t = extract_json_array s) :=
  ⟨extract_of_loads_arr s xs h, fun h2 => extract_of_loads_arr t _ h2⟩

/-- Witness for C9 on the serialized array `[1]`. -/
theorem extract_idempotent_witness :
    extract_json_array "[1]" = [JsonValue.num 1] ∧
    extract_json_array " [ 1 ] " = extract_json_array "[1]" :=
  ⟨(extract_idempotent "[1]" "[1]" [JsonValue.num 1] rfl).1,
   (extract_idempotent "[1]" " [ 1 ] " [JsonValue.num 1] rfl).2 rfl⟩

/-- C4 counterexample: on the spec's Scenario 3 response the code performs
no textual repair — both parse attempts fail on the single quotes and bare
keys — so extraction yields the empty list, not one object as the claim
states. -/
theorem extract_no_repair_counterexample :
    extract_json_array c4input = [] ∧ (extract_json_array c4input).length ≠ 1 := by
  have h0 : extract_json_array c4input = [] := rfl
  exact ⟨h0, by rw [h0]; decide⟩

/-- C4 amended: when the whole text does not parse and a bracket candidate
exists, `extract_json_array` parses that candidate as-is — applying no
key-quoting or quote-normalization repair — and returns its elements when
it is an array, the empty list otherwise. -/
theorem extract_stage2_no_repair (s c : String)
    (h1 : jsonLoads s = none) (h2 : bracketCandidate s = some c) :
    extract_json_array s = stage2Result c := by
  cases hj : jsonLoads c with
  | none => simp only [extract_json_array, stage2Result, h1, h2, hj]
  | some v => cases v <;> simp only [extract_json_array, stage2Result, arrElems, h1, h2, hj]

/-- Witness for the amended C4 at the Scenario 3 input. -/
theorem extract_stage2_no_repair_witness :
    extract_json_array c4input = stage2Result c4candidate :=
  extract_stage2_no_repair c4input c4candidate rfl rfl

/-- A path always ends with its own file name. -/
theorem fileName_suffix (p : String) : pyEndsWith p (fileName p) = true := by
  unfold pyEndsWith fileName
  refine List.isSuffixOf_iff_suffix.mpr ?_
  show (p.toList.reverse.takeWhile (fun c => c != '/')).reverse <:+ p.toList
  refine List.reverse_prefix.mp ?_
  rw [List.reverse_reverse]
  exact List.takeWhile_prefix _

/-- C6 counterexample: the self-exclusion test is a suffix test on the
whole path, not a file-name test — `src/myreview.py` has file name
`myreview.py`, which is not an entry-point name, yet the rule rejects it
(and `is_reviewable_file` therefore returns false although the path is
under no excluded directory and carries an allowed extension). -/
theorem self_exclusion_not_filename_counterexample :
    selfExcluded "src/myreview.py" = true ∧
    fileName "src/myreview.py" = "myreview.py" ∧
    fileName "src/myreview.py" ∉ excluded_files ∧
    is_reviewable_file "src/myreview.py" = false :=
  ⟨rfl, rfl, by decide, rfl⟩

/-- C6 amended: the self-exclusion rule rejects a path exactly when the
path ends with `review_pr.py` or with `review.py` (a suffix test on the
whole path); in particular every path whose file name is one of the
entry-point names is rejected, but so are paths such as `src/myreview.py`
whose file name merely ends in one of them. -/
theorem self_exclusion_suffix_law (p : String) :
    (selfExcluded p = true ↔
      (pyEndsWith p "review_pr.py" = true ∨ pyEndsWith p "review.py" = true)) ∧
    (fileName p ∈ excluded_files → selfExcluded p = true) := by
  constructor
  · simp [selfExcluded, excluded_files]
  · intro hm
    simp only [excluded_files, List.mem_cons, List.mem_singleton,
      List.not_mem_nil] at hm
    simp only [selfExcluded, excluded_files, List.any_cons, List.any_nil,
      Bool.or_eq_true, Bool.or_false]
    rcases hm with h | h | h
    · exact Or.inl (h ▸ fileName_suffix p)
    · exact Or.inr (h ▸ fileName_suffix p)
    · exact absurd h (by simp)

/-- Witness for the amended C6: a path whose file name is an entry-point
name is self-excluded. -/
theorem self_exclusion_suffix_law_witness : selfExcluded "a/review.py" = true :=
  (self_exclusion_suffix_law "a/review.py").2 (by decide)

/-- A true `startswith` exposes the prefix in the character list. -/
theorem startsWith_shape (line s : String) (h : pyStartsWith line s = true) :
    ∃ rest, line.toList = s.toList ++ rest := by
  unfold pyStartsWith at h
  obtain ⟨t, ht⟩ := List.isPrefixOf_iff_prefix.mp h
  exact ⟨t, ht.symm⟩

/-- A line starting with `+++` starts with `+`. -/
theorem ppp_implies_p (line : String) (h : pyStartsWith line "+++" = true) :
    pyStartsWith line "+" = true := by
  obtain ⟨rest, hl⟩ := startsWith_shape line "+++" h
  unfold pyStartsWith
  rw [hl]
  rfl

/-- A line starting with `---` starts with `-`. -/
theorem mmm_implies_m (line : String) (h : pyStartsWith line "---" = true) :
    pyStartsWith line "-" = true := by
  obtain ⟨rest, hl⟩ := startsWith_shape line "---" h
  unfold pyStartsWith
  rw [hl]
  rfl

/-- A line that does not start with `+++` matches no file header. -/
theorem fileHeaderPath_eq_none (line : String)
    (h : pyStartsWith line "+++" = false) : fileHeaderPath line = none := by
  unfold fileHeaderPath
  split
  · rename_i rest heq
    exfalso
    have hp : pyStartsWith line "+++" = true := by
      unfold pyStartsWith
      rw [heq]
      rfl
    rw [hp] at h
    exact Bool.noConfusion h
  · rfl

/-- C3 counterexample: inside a hunk the code skips a `diff --git` line
without advancing the cursor, while the claim's transition rules ("any
other line increments the cursor") advance it — so on this diff the code
records added line 5 where the claim's rules record 6. -/
theorem parser_header_skip_counterexample :
    parse_unified_diff "+++ b/a.py\n@@ -1 +5 @@\ndiff --git q\n+x" =
      [("a.py", [5])] ∧
    c3_spec_parse "+++ b/a.py\n@@ -1 +5 @@\ndiff --git q\n+x" =
      [("a.py", [6])] ∧
    parse_unified_diff "+++ b/a.py\n@@ -1 +5 @@\ndiff --git q\n+x" ≠
      c3_spec_parse "+++ b/a.py\n@@ -1 +5 @@\ndiff --git q\n+x" := by
  have h1 : parse_unified_diff "+++ b/a.py\n@@ -1 +5 @@\ndiff --git q\n+x" =
      [("a.py", [5])] := rfl
  have h2 : c3_spec_parse "+++ b/a.py\n@@ -1 +5 @@\ndiff --git q\n+x" =
      [("a.py", [6])] := rfl
  exact ⟨h1, h2, by rw [h1, h2]; decide⟩

/-- C3 amended: while a file is selected and the cursor is known, a line
prefixed with a single added marker records the cursor value for that file
and increments the cursor; a line prefixed with a single removed marker
changes nothing; any other line that is neither a file/diff header
(`+++`, `---`, `diff --git`) nor a hunk header increments the cursor
without recording; and header-prefixed lines (file headers aside, which
reselect) are skipped with the cursor unchanged and nothing recorded. -/
theorem parse_step_characterization (st : ParseState) (line f : String)
    (n : Int) (hf : st.file_path = some f) (hc : st.cursor = some n) :
    (pyStartsWith line "+" = true → pyStartsWith line "+++" = false →
      parseStep st line =
        { st with added := updateAdd st.added f n, cursor := some (n + 1) }) ∧
    (pyStartsWith line "-" = true → pyStartsWith line "---" = false →
      parseStep st line = st) ∧
    (pyStartsWith line "+" = false → pyStartsWith line "-" = false →
      pyStartsWith line "diff --git" = false → hunkNewStart line = none →
      parseStep st line = { st with cursor := some (n + 1) }) ∧
    ((pyStartsWith line "+++" = true ∧ fileHeaderPath line = none) ∨
      pyStartsWith line "---" = true ∨ pyStartsWith line "diff --git" = true →
      parseStep st line = st) := by
  refine ⟨fun h1 h2 => ?_, fun h1 h2 => ?_, fun h1 h2 h3 h4 => ?_, fun hd => ?_⟩
  · obtain ⟨rest, hl⟩ := startsWith_shape line "+" h1
    have hfh : fileHeaderPath line = none := fileHeaderPath_eq_none line h2
    have hh : hunkNewStart line = none := by unfold hunkNewStart; rw [hl]; rfl
    have h3 : pyStartsWith line "---" = false := by
      unfold pyStartsWith; rw [hl]; rfl
    have h4 : pyStartsWith line "diff --git" = false := by
      unfold pyStartsWith; rw [hl]; rfl
    simp only [parseStep, hfh, hh, hf, hc, h1, h2, h3, h4, Bool.false_or,
      Bool.or_false, Bool.not_false, Bool.and_self, if_false, if_true,
      Bool.false_eq_true, Bool.and_true]
  · obtain ⟨rest, hl⟩ := startsWith_shape line "-" h1
    have h5 : pyStartsWith line "+++" = false := by
      unfold pyStartsWith; rw [hl]; rfl
    have h6 : pyStartsWith line "+" = false := by
      unfold pyStartsWith; rw [hl]; rfl
    have h7 : pyStartsWith line "diff --git" = false := by
      unfold pyStartsWith; rw [hl]; rfl
    have hfh : fileHeaderPath line = none := fileHeaderPath_eq_none line h5
    have hh : hunkNewStart line = none := by unfold hunkNewStart; rw [hl]; rfl
    simp only [parseStep, hfh, hh, hf, hc, h1, h2, h5, h6, h7, Bool.false_or,
      Bool.or_false, Bool.not_false, Bool.and_self, Bool.and_false,
      Bool.false_and, if_false, if_true, Bool.false_eq_true, Bool.and_true,
      Bool.true_and, Bool.not_true]
  · have h5 : pyStartsWith line "+++" = false := by
      cases hb : pyStartsWith line "+++" with
      | false => rfl
      | true => rw [ppp_implies_p line hb] at h1; exact Bool.noConfusion h1
    have h6 : pyStartsWith line "---" = false := by
      cases hb : pyStartsWith line "---" with
      | false => rfl
      | true => rw [mmm_implies_m line hb] at h2; exact Bool.noConfusion h2
    have hfh : fileHeaderPath line = none := fileHeaderPath_eq_none line h5
    simp only [parseStep, hfh, h4, hf, hc, h1, h2, h3, h5, h6, Bool.false_or,
      Bool.or_false, Bool.not_false, Bool.and_self, Bool.false_and, if_false,
      if_true, Bool.false_eq_true, Bool.and_true]
  · rcases hd with ⟨h1, hfh⟩ | h1 | h1
    · obtain ⟨rest, hl⟩ := startsWith_shape line "+++" h1
      have hh : hunkNewStart line = none := by unfold hunkNewStart; rw [hl]; rfl
      simp only [parseStep, hfh, hh, hf, hc, h1, Bool.true_or, if_true]
    · obtain ⟨rest, hl⟩ := startsWith_shape line "---" h1
      have h5 : pyStartsWith line "+++" = false := by
        unfold pyStartsWith; rw [hl]; rfl
      have hfh : fileHeaderPath line = none := fileHeaderPath_eq_none line h5
      have hh : hunkNewStart line = none := by unfold hunkNewStart; rw [hl]; rfl
      simp only [parseStep, hfh, hh, hf, hc, h1, h5, Bool.false_or,
        Bool.true_or, if_true]
    · obtain ⟨rest, hl⟩ := startsWith_shape line "diff --git" h1
      have h5 : pyStartsWith line "+++" = false := by
        unfold pyStartsWith; rw [hl]; rfl
      have h6 : pyStartsWith line "---" = false := by
        unfold pyStartsWith; rw [hl]; rfl
      have hfh : fileHeaderPath line = none := fileHeaderPath_eq_none line h5
      have hh : hunkNewStart line = none := by unfold hunkNewStart; rw [hl]; rfl
      simp only [parseStep, hfh, hh, hf, hc, h1, h5, h6, Bool.false_or,
        Bool.or_true, Bool.true_or, if_true]

/-- Witness for the amended C3: an added line records the cursor value and
increments it. -/
theorem parse_step_characterization_witness :
    parseStep
        { file_path := some "a.py", added := [("a.py", [])], cursor := some 5 }
        "+x" =
      { file_path := some "a.py", added := [("a.py", [5])], cursor := some 6 } :=
  (parse_step_characterization
      { file_path := some "a.py", added := [("a.py", [])], cursor := some 5 }
      "+x" "a.py" 5 rfl rfl).1 (by decide) (by decide)

/-- Folding `acc ++ g x` is the flattening of the per-element results. -/
theorem foldl_append_flatten {α β : Type} (g : α → List β) (xs : List α)
    (acc : List β) :
    xs.foldl (fun a x => a ++ g x) acc = acc ++ (xs.map g).flatten := by
  induction xs generalizing acc with
  | nil => simp
  | cons x xs ih => simp [ih, List.append_assoc]

/-- The rule engine's accumulator loop equals the flattening of the
per-line detector results, in line order. -/
theorem rule_based_review_flatten (fs : String → Option String) (p : String)
    (a : List Int) (src : String) (h : fs p = some src) :
    rule_based_review fs p a =
      ((enumFrom 1 (pySplitlines src)).map
        (fun it => lineChecks p a it.1 it.2)).flatten := by
  unfold rule_based_review
  rw [h]
  simpa using foldl_append_flatten (fun it => lineChecks p a it.1 it.2)
    (enumFrom 1 (pySplitlines src)) []

/-- Findings produced by the `add` helper: the recorded fields, and the
line is in the added set. -/
theorem mem_addFinding {a : List Int} {p : String} {i : Int} {m : String}
    {f : Finding} (h : f ∈ addFinding a p i m) :
    f = { file := p, line := i, comment := m } ∧ i ∈ a := by
  unfold addFinding at h
  split at h
  · rename_i hmem
    rcases List.mem_singleton.mp h with rfl
    exact ⟨rfl, hmem⟩
  · exact absurd h (List.not_mem_nil f)

/-- Any finding of the per-line detector pass carries that file, that
line number (which is in the added set), and one of the nine fixed
detector messages. -/
theorem mem_lineChecks {p : String} {a : List Int} {i : Int} {t : String}
    {f : Finding} (h : f ∈ lineChecks p a i t) :
    f.file = p ∧ f.line = i ∧ f.line ∈ a ∧ f.comment ∈ ruleMessages := by
  simp only [lineChecks, List.mem_append, or_assoc] at h
  rcases h with h | h | h | h | h | h | h | h | h <;>
    (split at h
     <;> first
       | (rcases mem_addFinding h with ⟨rfl, hmem⟩
          exact ⟨rfl, rfl, hmem, by simp [ruleMessages]⟩)
       | exact absurd h (List.not_mem_nil _))

theorem lineChecks_line_eq {p : String} {a : List Int} {i : Int} {t : String}
    {f : Finding} (h : f ∈ lineChecks p a i t) : f.line = i :=
  (mem_lineChecks h).2.1

/-- Line-block flattening is sorted by line number, and bounded below by
the starting index. -/
theorem enumFlatten_pairwise (p : String) (a : List Int) (ts : List String)
    (i : Int) :
    (((enumFrom i ts).map (fun it => lineChecks p a it.1 it.2)).flatten).Pairwise
      (fun u v => u.line ≤ v.line) ∧
    ∀ f ∈ ((enumFrom i ts).map (fun it => lineChecks p a it.1 it.2)).flatten,
      i ≤ f.line := by
  induction ts generalizing i with
  | nil => simp [enumFrom]
  | cons t ts ih =>
    simp only [enumFrom, List.map_cons, List.flatten_cons]
    obtain ⟨ihp, ihb⟩ := ih (i + 1)
    constructor
    · rw [List.pairwise_append]
      refine ⟨?_, ihp, ?_⟩
      · refine List.pairwise_of_forall_mem_list (fun u hu v hv => ?_)
        rw [lineChecks_line_eq hu, lineChecks_line_eq hv]
      · intro u hu v hv
        rw [lineChecks_line_eq hu]
        have := ihb v hv
        omega
    · intro f hf
      rcases List.mem_append.mp hf with hf | hf
      · rw [lineChecks_line_eq hf]
      · have := ihb f hf
        omega

/-- C7: the rule engine is deterministic — its output depends only on the
file's content (identical content yields the identical ordered sequence) —
and its output is exactly the per-line flattening of the detector pass
`lineChecks` (which fires the nine detectors in their fixed source order,
one distinct finding per match, with no coalescing), enumerated over the
physical lines in ascending order; consequently the sequence is sorted by
line number. -/
theorem rule_engine_deterministic_ordered (fs fs' : String → Option String)
    (p : String) (a : List Int) (h : fs p = fs' p) :
    rule_based_review fs p a = rule_based_review fs' p a ∧
    (∀ src, fs p = some src →
      rule_based_review fs p a =
        ((enumFrom 1 (pySplitlines src)).map
          (fun it => lineChecks p a it.1 it.2)).flatten) ∧
    (rule_based_review fs p a).Pairwise (fun u v => u.line ≤ v.line) := by
  refine ⟨by simp only [rule_based_review, h],
    fun src hsrc => rule_based_review_flatten fs p a src hsrc, ?_⟩
  cases hfp : fs p with
  | none => simp [rule_based_review, hfp]
  | some src =>
    rw [rule_based_review_flatten fs p a src hfp]
    exact (enumFlatten_pairwise p a (pySplitlines src) 1).1

/-- Witness for C7: two stores with the same content for `w.js` produce
the same findings. -/
theorem rule_engine_deterministic_ordered_witness :
    rule_based_review (fun q => if q = "w.js" then some "x\na == b" else none)
        "w.js" [2] =
      rule_based_review (fun _ => some "x\na == b") "w.js" [2] :=
  (rule_engine_deterministic_ordered
    (fun q => if q = "w.js" then some "x\na == b" else none)
    (fun _ => some "x\na == b") "w.js" [2] rfl).1

/-- Invariant of the diff map under construction: every key passed the
eligibility filter, and keys are unique. -/
def goodMap (m : List (String × List Int)) : Prop :=
  (∀ k ∈ m.map Prod.fst, is_reviewable_file k = true) ∧ (m.map Prod.fst).Nodup

theorem lookupAdded_none_iff (m : List (String × List Int)) (k : String) :
    lookupAdded m k = none ↔ k ∉ m.map Prod.fst := by
  induction m with
  | nil => simp [lookupAdded]
  | cons e m ih =>
    simp only [lookupAdded, List.map_cons, List.mem_cons]
    by_cases h : e.1 = k
    · rw [if_pos h]
      constructor
      · intro hk
        exact Option.noConfusion hk
      · intro hk
        exact absurd (Or.inl h.symm) hk
    · rw [if_neg h, ih]
      constructor
      · intro hk hor
        rcases hor with hEq | hm
        · exact h hEq.symm
        · exact hk hm
      · intro hk hm
        exact hk (Or.inr hm)

/-- With unique keys, every entry is found by lookup. -/
theorem lookupAdded_mem (m : List (String × List Int))
    (hnd : (m.map Prod.fst).Nodup) (e : String × List Int) (he : e ∈ m) :
    lookupAdded m e.1 = some e.2 := by
  induction m with
  | nil => cases he
  | cons x m ih =>
    rcases List.mem_cons.mp he with rfl | he'
    · simp [lookupAdded]
    · have hx : x.1 ≠ e.1 := by
        intro hEq
        exact (List.nodup_cons.mp hnd).1 (hEq ▸ List.mem_map_of_mem Prod.fst he')
      simp only [lookupAdded, if_neg hx]
      exact ih (List.nodup_cons.mp hnd).2 he'

/-- Recording a line preserves the key sequence. -/
theorem updateAdd_keys (m : List (String × List Int)) (k : String) (n : Int) :
    (updateAdd m k n).map Prod.fst = m.map Prod.fst := by
  unfold updateAdd
  rw [List.map_map]
  refine List.map_congr_left (fun e he => ?_)
  by_cases hc : e.1 = k <;> simp [hc]

/-- Every parser step preserves the map invariant: keys are admitted only
through the eligibility check of the file-header branch. -/
theorem parseStep_good (st : ParseState) (line : String)
    (h : goodMap st.added) : goodMap (parseStep st line).added := by
  unfold parseStep
  split
  · rename_i p hfp
    split
    · rename_i hrev
      show goodMap (insertKeyIfNew st.added p)
      unfold insertKeyIfNew
      split
      · rename_i hlk
        constructor
        · intro k hk
          rw [List.map_append] at hk
          rcases List.mem_append.mp hk with hk | hk
          · exact h.1 k hk
          · simp at hk
            subst hk
            exact hrev
        · rw [List.map_append]
          refine List.Nodup.append h.2 (by simp) ?_
          intro a ha hb
          simp at hb
          exact (lookupAdded_none_iff st.added p).mp hlk (hb ▸ ha)
      · exact h
    · exact h
  · split
    · exact h
    · split
      · rename_i f n
        split_ifs with hA hB hC
        · exact h
        · constructor
          · intro k hk
            rw [updateAdd_keys] at hk
            exact h.1 k hk
          · rw [updateAdd_keys]
            exact h.2
        · exact h
        · exact h
      · exact h

/-- The parsed diff map has reviewable, duplicate-free keys. -/
theorem parse_good (diff : String) : goodMap (parse_unified_diff diff) := by
  unfold parse_unified_diff
  generalize pySplitlines diff = lines
  suffices hs : ∀ (st : ParseState), goodMap st.added →
      goodMap ((lines.foldl parseStep st).added) by
    exact hs _ (by simp [goodMap])
  induction lines with
  | nil => intro st h; exact h
  | cons l ls ih => intro st h; exact ih _ (parseStep_good st l h)

/-- The rule engine reads only its own file's content. -/
theorem rule_based_review_congr (fs fs' : String → Option String) (p : String)
    (a : List Int) (h : fs p = fs' p) :
    rule_based_review fs p a = rule_based_review fs' p a := by
  simp only [rule_based_review, h]

/-- The per-file rule loop equals the flattening of the per-entry scans. -/
theorem rule_phase_flatten (fs : String → Option String)
    (m : List (String × List Int)) :
    rule_phase fs m =
      (m.map (fun e => if e.2 = [] then []
        else rule_based_review fs e.1 e.2)).flatten := by
  unfold rule_phase
  rw [show (fun (acc : List Finding) (e : String × List Int) =>
        if e.2 = [] then acc else acc ++ rule_based_review fs e.1 e.2) =
      (fun acc e => acc ++
        (if e.2 = [] then [] else rule_based_review fs e.1 e.2)) from
    funext fun acc => funext fun e => by by_cases hc : e.2 = [] <;> simp [hc]]
  simpa using foldl_append_flatten
    (fun e => if e.2 = [] then [] else rule_based_review fs e.1 e.2) m []

/-- The rule phase depends only on the contents of the mapped files. -/
theorem rule_phase_congr (fs fs' : String → Option String)
    (m : List (String × List Int)) (h : ∀ e ∈ m, fs e.1 = fs' e.1) :
    rule_phase fs m = rule_phase fs' m := by
  rw [rule_phase_flatten, rule_phase_flatten]
  congr 1
  refine List.map_congr_left (fun e he => ?_)
  by_cases hc : e.2 = []
  · simp [hc]
  · simp [hc, rule_based_review_congr fs fs' e.1 e.2 (h e he)]

/-- C8: a path failing `is_reviewable_file` never becomes a key of the
parsed diff map, and `review_code` never reads that path's file content:
its result is unchanged under any modification of the file store at that
path, whatever that file contains. -/
theorem eligibility_at_parse_time (diff p : String)
    (h : is_reviewable_file p = false) :
    lookupAdded (parse_unified_diff diff) p = none ∧
    ∀ (fs fs' gen : String → Option String), (∀ q, q ≠ p → fs q = fs' q) →
      review_code fs gen diff = review_code fs' gen diff := by
  have hg := parse_good diff
  have hnk : p ∉ (parse_unified_diff diff).map Prod.fst := by
    intro hk
    have := hg.1 p hk
    rw [h] at this
    exact Bool.noConfusion this
  refine ⟨(lookupAdded_none_iff _ p).mpr hnk, fun fs fs' gen hfs => ?_⟩
  have hrp : rule_phase fs (parse_unified_diff diff) =
      rule_phase fs' (parse_unified_diff diff) := by
    refine rule_phase_congr fs fs' _ (fun e he => ?_)
    refine hfs e.1 (fun hEq => ?_)
    exact hnk (hEq ▸ List.mem_map_of_mem Prod.fst he)
  unfold review_code
  rw [hrp]

/-- Witness for C8 on the spec's Scenario 4 header: the `node_modules`
path is not in the map, and planting content (even a TODO) at that path
changes nothing. -/
theorem eligibility_at_parse_time_witness :
    lookupAdded
        (parse_unified_diff
          "+++ b/node_modules/x/index.js\n@@ -0,0 +1 @@\n+var a")
        "node_modules/x/index.js" = none ∧
    review_code
        (fun q => if q = "node_modules/x/index.js" then some "TODO" else none)
        (fun _ => none)
        "+++ b/node_modules/x/index.js\n@@ -0,0 +1 @@\n+var a" =
      review_code (fun _ => none) (fun _ => none)
        "+++ b/node_modules/x/index.js\n@@ -0,0 +1 @@\n+var a" := by
  have h := eligibility_at_parse_time
    "+++ b/node_modules/x/index.js\n@@ -0,0 +1 @@\n+var a"
    "node_modules/x/index.js" (by decide)
  exact ⟨h.1, h.2 _ _ _ (fun q hq => by simp [hq])⟩

theorem head_not_of_dropWhile (p : Char → Bool) (l : List Char) (c : Char)
    (cs : List Char) (h : l.dropWhile p = c :: cs) : p c = false := by
  induction l with
  | nil => simp at h
  | cons a l ih =>
    by_cases hpa : p a = true
    · rw [List.dropWhile_cons, if_pos hpa] at h
      exact ih h
    · rw [List.dropWhile_cons, if_neg hpa] at h
      injection h with h1 _
      subst h1
      simpa using hpa

theorem rtrim_ne_nil (p : Char → Bool) (c : Char) (cs : List Char)
    (hc : p c = false) : ((c :: cs).reverse.dropWhile p).reverse ≠ [] := by
  intro h
  have h2 : (c :: cs).reverse.dropWhile p = [] := by
    have := congrArg List.reverse h
    simpa using this
  have h3 := List.dropWhile_eq_nil_iff.mp h2 c (by simp)
  rw [hc] at h3
  exact Bool.noConfusion h3

/-- Stripping an already-stripped nonempty list keeps it nonempty. -/
theorem pyStripChars_stripped_ne_nil (y : List Char)
    (h : pyStripChars y ≠ []) : pyStripChars (pyStripChars y) ≠ [] := by
  obtain ⟨a, cs, hc⟩ : ∃ a cs, pyStripChars y = a :: cs := by
    cases hcc : pyStripChars y with
    | nil => exact absurd hcc h
    | cons a cs => exact ⟨a, cs, rfl⟩
  have hpre : pyStripChars y <+: y.dropWhile pyIsSpace := by
    have hsuf : (y.dropWhile pyIsSpace).reverse.dropWhile pyIsSpace <:+
        (y.dropWhile pyIsSpace).reverse := List.dropWhile_suffix _
    have := List.reverse_prefix.mpr hsuf
    rwa [List.reverse_reverse] at this
  obtain ⟨t, ht⟩ := hpre
  rw [hc] at ht
  have ha : pyIsSpace a = false :=
    head_not_of_dropWhile pyIsSpace y a (cs ++ t) (by rw [← ht]; rfl)
  rw [hc]
  show ((((a :: cs).dropWhile pyIsSpace).reverse.dropWhile pyIsSpace).reverse) ≠ []
  rw [List.dropWhile_cons, if_neg (by simp [ha])]
  exact rtrim_ne_nil pyIsSpace a cs ha

/-- A nonempty `strip` result stays nonempty when stripped again. -/
theorem pyStrip_stripped_ne (x : String) (h : pyStrip x ≠ "") :
    pyStrip (pyStrip x) ≠ "" := by
  intro hc
  refine pyStripChars_stripped_ne_nil x.toList (fun hnil => h ?_) ?_
  · show String.mk (pyStripChars x.toList) = ""
    rw [hnil]
  · have h2 : String.mk (pyStripChars (pyStripChars x.toList)) = "" := hc
    exact congrArg String.data h2

/-- Findings of one file's rule scan: the scanned path, a line of the
added set, and one of the nine detector messages. -/
theorem mem_rule_based_review {fs : String → Option String} {p : String}
    {a : List Int} {f : Finding} (h : f ∈ rule_based_review fs p a) :
    f.file = p ∧ f.line ∈ a ∧ f.comment ∈ ruleMessages := by
  cases hfp : fs p with
  | none =>
    unfold rule_based_review at h
    rw [hfp] at h
    simp at h
  | some src =>
    rw [rule_based_review_flatten fs p a src hfp] at h
    rcases List.mem_flatten.mp h with ⟨l, hl, hfl⟩
    rcases List.mem_map.mp hl with ⟨it, _, rfl⟩
    obtain ⟨h1, _, h3, h4⟩ := mem_lineChecks hfl
    exact ⟨h1, h3, h4⟩

/-- Findings of the rule phase come from some map entry's scan. -/
theorem mem_rule_phase {fs : String → Option String}
    {m : List (String × List Int)} {f : Finding} (h : f ∈ rule_phase fs m) :
    ∃ e ∈ m, e.2 ≠ [] ∧ f ∈ rule_based_review fs e.1 e.2 := by
  rw [rule_phase_flatten] at h
  rcases List.mem_flatten.mp h with ⟨l, hl, hfl⟩
  rcases List.mem_map.mp hl with ⟨e, hem, rfl⟩
  by_cases hc : e.2 = []
  · rw [if_pos hc] at hfl
    exact absurd hfl (List.not_mem_nil f)
  · exact ⟨e, hem, hc, by rwa [if_neg hc] at hfl⟩

/-- Every kept candidate of the validator targets a reviewable file, a key
of the map, one of its added lines, and carries a nonempty trimmed
comment. -/
theorem mem_filter_items {items : List JsonValue}
    {m : List (String × List Int)} {f : Finding}
    (h : f ∈ filter_items_to_changed_lines items m) :
    is_reviewable_file f.file = true ∧
    (∃ lines, lookupAdded m f.file = some lines ∧ f.line ∈ lines) ∧
    (∃ x, f.comment = pyStrip x) ∧ f.comment ≠ "" := by
  unfold filter_items_to_changed_lines at h
  suffices hs : ∀ (its : List JsonValue) (acc : List Finding),
      (∀ g ∈ acc, is_reviewable_file g.file = true ∧
        (∃ lines, lookupAdded m g.file = some lines ∧ g.line ∈ lines) ∧
        (∃ x, g.comment = pyStrip x) ∧ g.comment ≠ "") →
      ∀ g ∈ its.foldl (filterStep m) acc,
        is_reviewable_file g.file = true ∧
        (∃ lines, lookupAdded m g.file = some lines ∧ g.line ∈ lines) ∧
        (∃ x, g.comment = pyStrip x) ∧ g.comment ≠ "" by
    exact hs items [] (by simp) f h
  intro its
  induction its with
  | nil =>
    intro acc hacc g hg
    exact hacc g hg
  | cons it its ih =>
    intro acc hacc g hg
    rw [List.foldl_cons] at hg
    refine ih (filterStep m acc it) (fun g' hg' => ?_) g hg
    simp only [filterStep] at hg'
    split at hg'
    · split at hg'
      · exact hacc g' hg'
      · split at hg'
        · rename_i kvs ln hint fp hfile
          split at hg'
          · exact hacc g' hg'
          · split at hg'
            · exact hacc g' hg'
            · split at hg'
              · exact hacc g' hg'
              · rename_i hfp hcomment hrev
                split at hg'
                · exact hacc g' hg'
                · rename_i lines hlk
                  split at hg'
                  · rename_i hmem
                    rcases List.mem_append.mp hg' with hg' | hg'
                    · exact hacc g' hg'
                    · rcases List.mem_singleton.mp hg' with rfl
                      refine ⟨by simpa using hrev, ⟨lines, hlk, hmem⟩,
                        ⟨_, rfl⟩, hcomment⟩
                  · exact hacc g' hg'
        · exact hacc g' hg'
    · exact hacc g' hg'

/-- C2: every finding returned by `review_code` — whether from the rule
engine or from the validated generative pipeline — targets a file that is
a key of the diff map and passes `is_reviewable_file`, a line in that
file's added set, and carries a comment that is nonempty after trimming. -/
theorem findings_scope_invariant (fs gen : String → Option String)
    (diff : String) (f : Finding) (h : f ∈ review_code fs gen diff) :
    is_reviewable_file f.file = true ∧
    (∃ lines, lookupAdded (parse_unified_diff diff) f.file = some lines ∧
      f.line ∈ lines) ∧
    pyStrip f.comment ≠ "" := by
  unfold review_code at h
  by_cases hguard : (diff = "" ∨ pyStartsWith diff "Error getting diff:" = true)
  · rw [if_pos hguard] at h
    exact absurd h (List.not_mem_nil f)
  · rw [if_neg hguard] at h
    by_cases hre : rule_phase fs (parse_unified_diff diff) = []
    · rw [if_pos hre] at h
      unfold generative_phase at h
      cases hg : gen (build_review_prompt (parse_unified_diff diff)) with
      | none =>
        rw [hg] at h
        simp at h
      | some raw =>
        rw [hg] at h
        obtain ⟨h1, h2, ⟨x, hx⟩, h4⟩ := mem_filter_items h
        refine ⟨h1, h2, ?_⟩
        rw [hx]
        exact pyStrip_stripped_ne x (hx ▸ h4)
    · rw [if_neg hre] at h
      obtain ⟨e, hem, hne, hf⟩ := mem_rule_phase h
      obtain ⟨h1, h3, h4⟩ := mem_rule_based_review hf
      have hg := parse_good diff
      refine ⟨?_, ⟨e.2, ?_, h3⟩, ?_⟩
      · rw [h1]
        exact hg.1 e.1 (List.mem_map_of_mem Prod.fst hem)
      · rw [h1]
        exact lookupAdded_mem _ hg.2 e hem
      · have hmsg : ∀ msg ∈ ruleMessages, pyStrip msg ≠ "" := by decide
        exact hmsg f.comment h4

/-- Witness for C2 on a one-file diff whose rule scan finds a TODO. -/
theorem findings_scope_invariant_witness :
    is_reviewable_file "b.py" = true ∧
    (∃ lines,
      lookupAdded (parse_unified_diff "+++ b/b.py\n@@ -0,0 +1 @@\n+y") "b.py" =
        some lines ∧ (1 : Int) ∈ lines) ∧
    pyStrip msgTodo ≠ "" :=
  findings_scope_invariant
    (fun q => if q = "b.py" then some "# TODO x" else none)
    (fun _ => none) "+++ b/b.py\n@@ -0,0 +1 @@\n+y"
    { file := "b.py", line := 1, comment := msgTodo } (by decide)

/-- C1: past the error guard, whenever the rule phase is nonempty
`review_code` returns exactly the rule findings and its result does not
depend on the generative service at all; only when the rule phase is
empty does it run the generative pipeline (prompt → service → extraction →
validation). -/
theorem determinism_first_fallback (fs gen : String → Option String)
    (diff : String)
    (hguard : ¬(diff = "" ∨ pyStartsWith diff "Error getting diff:" = true)) :
    (rule_phase fs (parse_unified_diff diff) ≠ [] →
      review_code fs gen diff = rule_phase fs (parse_unified_diff diff) ∧
      ∀ gen', review_code fs gen' diff = review_code fs gen diff) ∧
    (rule_phase fs (parse_unified_diff diff) = [] →
      review_code fs gen diff = generative_phase gen (parse_unified_diff diff)) := by
  constructor
  · intro hne
    have he : ∀ g : String → Option String,
        review_code fs g diff = rule_phase fs (parse_unified_diff diff) := by
      intro g
      unfold review_code
      rw [if_neg hguard, if_neg hne]
    exact ⟨he gen, fun gen' => by rw [he gen', he gen]⟩
  · intro hemp
    unfold review_code
    rw [if_neg hguard, if_pos hemp]

/-- Witness for C1: with a TODO in the changed file the result is the rule
findings (the service double, which would return `[]`, is ignored). -/
theorem determinism_first_fallback_witness :
    review_code (fun q => if q = "c.py" then some "# TODO z" else none)
        (fun _ => some "[]") "+++ b/c.py\n@@ -0,0 +1 @@\n+w" =
      rule_phase (fun q => if q = "c.py" then some "# TODO z" else none)
        (parse_unified_diff "+++ b/c.py\n@@ -0,0 +1 @@\n+w") :=
  ((determinism_first_fallback
      (fun q => if q = "c.py" then some "# TODO z" else none)
      (fun _ => some "[]") "+++ b/c.py\n@@ -0,0 +1 @@\n+w"
      (by decide)).1 (by decide)).1
